import Mathlib

/-!
Shallow embedding of the issue/batch dependency scheduler of
`.quetrex/scripts/dependency-manager.py` and its CLI adapter
`.quetrex/scripts/update-progress.py`.

The dependency graph document is modelled as a typed record
(`GraphDoc`), the persisted progress ledger as `Progress`, and a live
`DependencyManager` instance as `Manager`.  Wall-clock timestamps are
injected as explicit string arguments.  Operations that raise Python
exceptions are modelled with `Option`.
-/

namespace Sentra

/-- Issue lifecycle states (`IssueStatus` enum). -/
inductive IssueStatus where
  | pending
  | ready
  | inProgress
  | complete
  | blocked
  | failed
deriving DecidableEq, Repr

/-- Parsing of a ledger status string, `IssueStatus(status_str)`;
an unknown string raises `ValueError`, modelled as `none`. -/
def IssueStatus.ofString : String → Option IssueStatus
  | "pending" => some .pending
  | "ready" => some .ready
  | "in_progress" => some .inProgress
  | "complete" => some .complete
  | "blocked" => some .blocked
  | "failed" => some .failed
  | _ => none

/-- One entry of the `issues` list of `dependency-graph.yml`. -/
structure IssueDef where
  id : Int
  depends_on : List Int := []
  soft_depends_on : List Int := []
  blocks : List Int := []
  conflicts_with : List Int := []
  files : List String := []
deriving DecidableEq, Repr

/-- One entry of the `batches` mapping of `dependency-graph.yml`,
with the mapping key folded in as `id` and the
`dependencies.all_from_batch` list flattened to `depends_on_batches`
(`_build_issue_index` accepts both shapes).  `parallel_limit`
defaults to 10 in `_build_issue_index`. -/
structure BatchDef where
  id : String
  name : String := ""
  parallel_limit : Int := 10
  issues : List Int := []
  depends_on_batches : List String := []
  estimated_duration : String := "Unknown"
deriving DecidableEq, Repr

/-- The dependency graph document (static reference data). -/
structure GraphDoc where
  project : String := "Unknown"
  batches : List BatchDef := []
  issues : List IssueDef := []
deriving DecidableEq, Repr

/-- One issue record of `progress.json` (`issues` object values).
JSON keys that are absent are modelled as the defaults the reading
code supplies via `.get`. -/
structure IssueRecord where
  status : String := "pending"
  started_at : Option String := none
  completed_at : Option String := none
  pr_url : Option String := none
  failure_reason : Option String := none
deriving DecidableEq, Repr

/-- One batch record of `progress.json` (`batches` object values). -/
structure BatchRecord where
  status : String
  completed_at : String
  issues_count : Nat
deriving DecidableEq, Repr

/-- The persisted progress ledger (`progress.json`).  Issue keys are
`str(issue_id)` in the JSON document; since `str` is injective on
ints they are modelled directly as `Int`. -/
structure Progress where
  project : String := "Unknown"
  started_at : Option String := none
  updated_at : Option String := none
  issues : List (Int × IssueRecord) := []
  batches : List (String × BatchRecord) := []
deriving DecidableEq, Repr

/-- First-match lookup in an association list (JSON object / dict). -/
def lookupKey {κ α : Type} [DecidableEq κ] (l : List (κ × α)) (k : κ) : Option α :=
  (l.find? (fun e => e.1 = k)).map (fun e => e.2)

/-- Dict-style update: replace the value at the first occurrence of
the key, keeping its position, or append the binding at the end. -/
def setKey {κ α : Type} [DecidableEq κ] (l : List (κ × α)) (k : κ) (v : α) :
    List (κ × α) :=
  match l with
  | [] => [(k, v)]
  | e :: rest => if e.1 = k then (k, v) :: rest else e :: setKey rest k v

/-- In-memory `Issue` dataclass built by `_build_issue_index`. -/
structure Issue where
  id : Int
  batch : String
  status : IssueStatus
  depends_on : List Int
  soft_depends_on : List Int
  blocks : List Int
  conflicts_with : List Int
  files : List String
  started_at : Option String := none
  completed_at : Option String := none
  pr_url : Option String := none
deriving DecidableEq, Repr

/-- A live `DependencyManager`: the issue index, the batch index, the
in-memory `self.progress`, and the on-disk `progress.json` content. -/
structure Manager where
  issues : List Issue
  batches : List BatchDef
  progress : Progress
  disk : Progress
deriving DecidableEq, Repr

/-- Batch membership search of `_build_issue_index`: the first batch
whose `issues` list contains the id, else `"unknown"`. -/
def findBatchId (batches : List BatchDef) (iid : Int) : String :=
  match batches.find? (fun b => iid ∈ b.issues) with
  | some b => b.id
  | none => "unknown"

/-- Construction of one in-memory `Issue` from its definition and the
ledger, as done in the issue loop of `_build_issue_index`; fails when
the recorded status string does not parse. -/
def buildIssue (batches : List BatchDef) (p : Progress) (d : IssueDef) :
    Option Issue :=
  let r := (lookupKey p.issues d.id).getD {}
  (IssueStatus.ofString r.status).map (fun st =>
    { id := d.id
      batch := findBatchId batches d.id
      status := st
      depends_on := d.depends_on
      soft_depends_on := d.soft_depends_on
      blocks := d.blocks
      conflicts_with := d.conflicts_with
      files := d.files
      started_at := r.started_at
      completed_at := r.completed_at
      pr_url := r.pr_url })

/-- The issue loop of `_build_issue_index` over the whole definition
list; fails as soon as one status string fails to parse. -/
def buildIssues (batches : List BatchDef) (p : Progress) :
    List IssueDef → Option (List Issue)
  | [] => some []
  | d :: ds =>
    match buildIssue batches p d, buildIssues batches p ds with
    | some i, some is => some (i :: is)
    | _, _ => none

/-- `DependencyManager.__init__` on an existing ledger file: load the
graph, load the progress, build the indexes.  `none` when some
recorded status string does not parse (`IssueStatus` raises). -/
def load (doc : GraphDoc) (p : Progress) : Option Manager :=
  (buildIssues doc.batches p doc.issues).map (fun is =>
    { issues := is, batches := doc.batches, progress := p, disk := p })

/-- The empty-but-valid ledger `_load_progress` creates when
`progress.json` is missing. -/
def initialProgress (doc : GraphDoc) : Progress :=
  { project := doc.project, started_at := none, updated_at := none,
    issues := [], batches := [] }

/-- First-match search of the issue index, `self.issues[issue_id]`. -/
def Manager.findIssue (m : Manager) (iid : Int) : Option Issue :=
  m.issues.find? (fun i => i.id = iid)

/-- First-match search of the batch index, `self.batches.get(bid)`. -/
def Manager.findBatch (m : Manager) (bid : String) : Option BatchDef :=
  m.batches.find? (fun b => b.id = bid)

/-- Does the issue with the given id have the given status, in the
sense of `i in self.issues and self.issues[i].status == st`? -/
def Manager.idHasStatus (m : Manager) (iid : Int) (st : IssueStatus) : Bool :=
  (m.findIssue iid).any (fun i => i.status = st)

/-- `DependencyManager._is_batch_complete`: the `progress.json` batch
record is consulted first; when it claims `complete` the members are
not re-checked; otherwise completion falls back to requiring every
member issue to be present with status Complete. -/
def Manager.isBatchComplete (m : Manager) (bid : String) : Bool :=
  if (lookupKey m.progress.batches bid).any (fun br => br.status = "complete") then
    true
  else
    match m.findBatch bid with
    | none => false
    | some b => b.issues.all (fun iid => m.idHasStatus iid .complete)

/-- One conflict record of `detect_conflicts`. -/
structure Conflict where
  issue_id : Int
  type : String
  reason : String
  files : List String
deriving DecidableEq, Repr

/-- Overlap of two owned-file lists, `list(set(a) & set(b))`:
the distinct paths occurring in both. -/
def fileOverlap (a b : List String) : List String :=
  (a.filter (fun f => f ∈ b)).dedup

/-- Loop body of `detect_conflicts` for one In-Progress issue: an
explicit `conflicts_with` entry yields an `explicit` record with an
empty files list (and `continue` skips the overlap check); otherwise
a non-empty file overlap yields a `file_conflict` record. -/
def conflictRecord (issue other : Issue) : Option Conflict :=
  if other.id ∈ issue.conflicts_with then
    some { issue_id := other.id, type := "explicit",
           reason := "Explicit conflict relationship", files := [] }
  else
    let cf := fileOverlap issue.files other.files
    if cf.isEmpty then none
    else some { issue_id := other.id, type := "file_conflict",
                reason := "Modifying same files", files := cf }

/-- `DependencyManager.detect_conflicts`: records against every
currently In-Progress issue; `[]` when the id is unknown. -/
def Manager.detectConflicts (m : Manager) (iid : Int) : List Conflict :=
  match m.findIssue iid with
  | none => []
  | some issue =>
    (m.issues.filter (fun i => i.status = .inProgress)).filterMap
      (conflictRecord issue)

/-- The blocking reason returned by `can_start_issue`, with the
payload of the corresponding formatted message. -/
inductive Reason where
  | notFound (iid : Int)
  | alreadyComplete (iid : Int)
  | alreadyInProgress (iid : Int)
  | blockedByBatch (bid : String)
  | blockedByIssue (dep : Int)
  | conflictsWith (ids : List Int)
  | parallelLimit (bid : String) (limit : Int)
deriving DecidableEq, Repr

/-- In-Progress member count used by the parallel-limit check of
`can_start_issue`. -/
def Manager.inProgressCount (m : Manager) (b : BatchDef) : Nat :=
  b.issues.countP (fun iid => m.idHasStatus iid .inProgress)

/-- `DependencyManager.can_start_issue`.  The method first re-reads
`progress.json` (`self.progress = self._load_progress()`), so the
batch-record cache consulted below is the on-disk one; issue statuses
still come from the in-memory index. -/
def Manager.canStartIssue (m₀ : Manager) (iid : Int) : Bool × Option Reason :=
  let m := { m₀ with progress := m₀.disk }
  match m.findIssue iid with
  | none => (false, some (.notFound iid))
  | some issue =>
    if issue.status = .complete then (false, some (.alreadyComplete iid))
    else if issue.status = .inProgress then (false, some (.alreadyInProgress iid))
    else
      let batch := m.findBatch issue.batch
      let failBatch := batch.bind (fun b =>
        b.depends_on_batches.find? (fun d => ¬ m.isBatchComplete d))
      match failBatch with
      | some d => (false, some (.blockedByBatch d))
      | none =>
        match issue.depends_on.find? (fun d => ¬ m.idHasStatus d .complete) with
        | some d => (false, some (.blockedByIssue d))
        | none =>
          let cs := m.detectConflicts iid
          if ¬ cs.isEmpty then
            (false, some (.conflictsWith (cs.map (fun c => c.issue_id))))
          else
            match batch with
            | some b =>
              if (m.inProgressCount b : Int) ≥ b.parallel_limit then
                (false, some (.parallelLimit issue.batch b.parallel_limit))
              else (true, none)
            | none => (true, none)

/-- `DependencyManager.get_ready_issues`: Pending issues passing
`can_start_issue`, in index insertion order; an optional batch filter
scopes the scan to the batch's member list (an unknown filter id
leaves the scan unscoped, as in the source). -/
def Manager.getReadyIssues (m : Manager) (batchId : Option String := none) :
    List Int :=
  let toCheck :=
    match batchId with
    | some bid =>
      match m.findBatch bid with
      | some b => b.issues.filterMap (fun i => m.findIssue i)
      | none => m.issues
    | none => m.issues
  (toCheck.filter (fun i =>
    i.status = .pending ∧ (m.canStartIssue i.id).1)).map (fun i => i.id)

/-- The `progress.json` issue entry written by `mark_complete`. -/
def completionRecord (issue : Issue) (url : Option String) (t : String) :
    IssueRecord :=
  { status := "complete", started_at := issue.started_at,
    completed_at := some t, pr_url := url, failure_reason := none }

/-- The Pending-to-Ready loop of `_on_batch_complete`.  Iterating the
issue index while mutating it in place: each Pending issue is checked
with `can_start_issue` — whose first action re-reads `progress.json`,
rebinding `self.progress` to the on-disk state (which at this point
lacks the batch record added just before the loop) — and flipped to
Ready when it may start.  Returns the mutated index and the final
value of `self.progress`. -/
def readyLoop (batches : List BatchDef) (disk : Progress) :
    List Issue → List Issue → Progress → List Issue × Progress
  | done, [], prog => (done, prog)
  | done, i :: todo, prog =>
    if i.status = .pending then
      let m : Manager :=
        { issues := done ++ i :: todo, batches := batches,
          progress := prog, disk := disk }
      let r := m.canStartIssue i.id
      let i' := if r.1 then { i with status := IssueStatus.ready } else i
      readyLoop batches disk (done ++ [i']) todo disk
    else
      readyLoop batches disk (done ++ [i]) todo prog

/-- The in-memory mutation `mark_complete` applies to the issue
object: status Complete, completion timestamp, and the PR URL when
one is given (Python truthiness: `None` and `""` leave it). -/
def completeIssueObj (issue : Issue) (url : Option String) (t : String) : Issue :=
  { issue with status := IssueStatus.complete, completed_at := some t,
               pr_url := if url.getD "" = "" then issue.pr_url else url }

/-- In-place replacement of the issue object with the given id in the
index (the dict maps the id to a single mutated object). -/
def setIssueObj (issues : List Issue) (iid : Int) (issue' : Issue) : List Issue :=
  issues.map (fun j => if j.id = iid then issue' else j)

/-- The ledger after `mark_complete`'s first save: the issue entry
overwritten with the completion record, `updated_at` refreshed. -/
def completionBase (p : Progress) (iid : Int) (issue : Issue)
    (url : Option String) (t : String) : Progress :=
  { p with issues := setKey p.issues iid (completionRecord issue url t),
           updated_at := some t }

/-- The `progress.json` batch record `_on_batch_complete` writes. -/
def batchCompletionRecord (b : BatchDef) (t : String) : BatchRecord :=
  { status := "complete", completed_at := t, issues_count := b.issues.length }

/-- A ledger with the batch completion record added. -/
def withBatchRecord (base : Progress) (b : BatchDef) (t : String) : Progress :=
  { base with batches := setKey base.batches b.id (batchCompletionRecord b t) }

/-- `DependencyManager.mark_complete`, invoked on a freshly loaded
manager (each CLI invocation constructs its own), returning the final
on-disk ledger.  `none` models the `ValueError` on an unknown id and
the load-time status-parse failure.  The issue entry is saved first;
when the issue's batch is then complete, `_on_batch_complete` adds
the batch record to the in-memory progress, runs the Pending-to-Ready
loop (whose `can_start_issue` calls re-read the just-saved file,
dropping the batch record whenever any Pending issue exists), and
saves the resulting progress. -/
def markCompleteAux (m : Manager) (p : Progress) (iid : Int)
    (issue : Issue) (url : Option String) (t : String) : Progress :=
  let issue' := completeIssueObj issue url t
  let issues' := setIssueObj m.issues iid issue'
  let base := completionBase p iid issue url t
  let m1 : Manager :=
    { issues := issues', batches := m.batches, progress := base, disk := base }
  match m1.findBatch issue'.batch with
  | none => base
  | some b =>
    if m1.isBatchComplete issue'.batch then
      (readyLoop m.batches base [] issues' (withBatchRecord base b t)).2
    else base

/-- `DependencyManager.mark_complete` on a freshly loaded manager,
returning the final on-disk ledger; `none` models the `ValueError`
on an unknown id and the load-time status-parse failure. -/
def markComplete (doc : GraphDoc) (p : Progress) (iid : Int)
    (url : Option String) (t : String) : Option Progress :=
  match load doc p with
  | none => none
  | some m =>
    match m.findIssue iid with
    | none => none
    | some issue => some (markCompleteAux m p iid issue url t)

/-- The `in_progress` branch of `update_issue_progress`: overwrite
the issue's ledger entry unconditionally (no guard on the previous
status) and save. -/
def updateInProgress (doc : GraphDoc) (p : Progress) (iid : Int)
    (t : String) : Option Progress :=
  match load doc p with
  | none => none
  | some m =>
    match m.findIssue iid with
    | none => none
    | some _ =>
      some { p with
        issues := setKey p.issues iid
          { status := "in_progress", started_at := some t,
            completed_at := none, pr_url := none, failure_reason := none },
        updated_at := some t }

/-- The `failed` branch of `update_issue_progress`: overwrite the
issue's ledger entry unconditionally (no guard on the previous
status) with `failure_reason or "Unknown"` and save. -/
def updateFailed (doc : GraphDoc) (p : Progress) (iid : Int)
    (reason : Option String) (url : Option String) (t : String) :
    Option Progress :=
  match load doc p with
  | none => none
  | some m =>
    match m.findIssue iid with
    | none => none
    | some issue =>
      some { p with
        issues := setKey p.issues iid
          { status := "failed", started_at := issue.started_at,
            completed_at := none, pr_url := url,
            failure_reason :=
              some (if reason.getD "" = "" then "Unknown" else reason.getD "") },
        updated_at := some t }

/-- `update_issue_progress` of `update-progress.py`: dispatch on the
status string; any exception (unknown issue, load failure) and an
unknown status string yield `False`; the ledger is left as read on
failure. -/
def updateIssueProgress (doc : GraphDoc) (p : Progress) (iid : Int)
    (status : String) (url reason : Option String) (t : String) :
    Bool × Progress :=
  let step : Option Progress :=
    if status = "complete" then markComplete doc p iid url t
    else if status = "in_progress" then updateInProgress doc p iid t
    else if status = "failed" then updateFailed doc p iid reason url t
    else none
  if status = "complete" ∨ status = "in_progress" ∨ status = "failed" then
    match step with
    | some p' => (true, p')
    | none => (false, p)
  else (false, p)

/-- The `main` entry point of `update-progress.py` as an exit code.
`argparse` validates `--status` against `choices` and exits with
status 2 on an invalid choice (before any handler code runs); then
`main` itself exits 1 when `--status failed` has no `--reason`;
otherwise `update_issue_progress` yields exit 0 on success and 1 on
error. -/
def updateProgressMain (doc : GraphDoc) (p : Progress) (iid : Int)
    (status : String) (url reason : Option String) (t : String) : Nat :=
  if ¬ (status = "complete" ∨ status = "in_progress" ∨ status = "failed") then 2
  else if status = "failed" ∧ reason.getD "" = "" then 1
  else if (updateIssueProgress doc p iid status url reason t).1 then 0 else 1

/-- One action of `resolve_conflict`. -/
inductive ResAction where
  | queue (issue : Int)
  | allowParallel (issue : Int) (files : List String)
deriving DecidableEq, Repr

/-- The result dictionary of `resolve_conflict`. -/
structure Resolution where
  strategy : String
  actions : List ResAction
  message : String
deriving DecidableEq, Repr

/-- `DependencyManager._sort_by_priority`: known issues sorted by
ascending hard-dependency count with Python's stable sort. -/
def Manager.sortByPriority (m : Manager) (ids : List Int) : List Int :=
  (((ids.filterMap m.findIssue).mergeSort
    (fun a b => a.depends_on.length ≤ b.depends_on.length)).map (fun i => i.id))

/-- `DependencyManager._attempt_file_partition`: `none` when the
concatenated owned-file lists of the known issues contain a
duplicate (`len(all_files) != len(set(all_files))`), else one
`allow_parallel` action per known issue. -/
def Manager.attemptFilePartition (m : Manager) (ids : List Int) :
    Option (List ResAction) :=
  let objs := ids.filterMap m.findIssue
  let allFiles := objs.flatMap (fun i => i.files)
  if allFiles.dedup.length = allFiles.length then
    some (objs.map (fun i => ResAction.allowParallel i.id i.files))
  else none

/-- The `sequential` result of `resolve_conflict`. -/
def Manager.sequentialResolution (m : Manager) (ids : List Int) : Resolution :=
  let sorted := m.sortByPriority ids
  { strategy := "sequential",
    actions := sorted.map ResAction.queue,
    message := s!"Will execute sequentially: {sorted}" }

/-- `DependencyManager.resolve_conflict`: `sequential` queues by
priority order; `partition` falls back to `sequential` when
`_attempt_file_partition` returns `None` or an empty (falsy) list;
`human` escalates; an unknown strategy raises (`none`). -/
def Manager.resolveConflict (m : Manager) (strategy : String) (ids : List Int) :
    Option Resolution :=
  if strategy = "sequential" then some (m.sequentialResolution ids)
  else if strategy = "partition" then
    match m.attemptFilePartition ids with
    | some (a :: acts) =>
      some { strategy := "partition", actions := a :: acts,
             message := "Files partitioned successfully" }
    | _ => some (m.sequentialResolution ids)
  else if strategy = "human" then
    some { strategy := "human", actions := [],
           message := s!"Escalated to human: issues {ids}" }
  else none

/-- The six checks of `can_start(id)` as the specification lists
them, in order: (2) not already Complete, (2') not already
In-Progress, (3) every batch this issue's batch depends on is
Complete (first failing batch reported), (4) every hard dependency is
Complete (first failing id reported), (5) no conflict with any
currently In-Progress issue, (6) the In-Progress count within the
issue's batch is strictly below the batch's parallel limit.  Each
entry is `none` when the check passes. -/
def canStartChecks (m : Manager) (iid : Int) (issue : Issue) :
    List (Option Reason) :=
  [ if issue.status = .complete then some (.alreadyComplete iid) else none,
    if issue.status = .inProgress then some (.alreadyInProgress iid) else none,
    ((m.findBatch issue.batch).bind (fun b =>
      b.depends_on_batches.find? (fun d => ¬ m.isBatchComplete d))).map
        Reason.blockedByBatch,
    (issue.depends_on.find? (fun d => ¬ m.idHasStatus d .complete)).map
      Reason.blockedByIssue,
    (if (m.detectConflicts iid).isEmpty then none
     else some (.conflictsWith ((m.detectConflicts iid).map (fun c => c.issue_id)))),
    (m.findBatch issue.batch).bind (fun b =>
      if (m.inProgressCount b : Int) ≥ b.parallel_limit then
        some (.parallelLimit issue.batch b.parallel_limit)
      else none) ]

/-- `can_start` exactly as the specification words it: check (1) the
issue exists, else not-found; then evaluate the remaining checks
short-circuiting in the listed order and return false with the first
failing reason; all passing yields `(true, none)`. -/
def canStartSpec (m₀ : Manager) (iid : Int) : Bool × Option Reason :=
  let m := { m₀ with progress := m₀.disk }
  match m.findIssue iid with
  | none => (false, some (.notFound iid))
  | some issue =>
    match (canStartChecks m iid issue).reduceOption.head? with
    | some r => (false, some r)
    | none => (true, none)

/-!  Concrete scenario fixtures used by the claims. -/

/-- End-to-end scenario graph: batch X = {1, 2} with no batch
dependencies; batch Y = {3 depends_on [1], 4 depends_on [2, 3]} with
Y depending on batch X. -/
def doc6 : GraphDoc :=
  { project := "Demo",
    batches :=
      [ { id := "X", name := "Batch X", issues := [1, 2] },
        { id := "Y", name := "Batch Y", issues := [3, 4],
          depends_on_batches := ["X"] } ],
    issues :=
      [ { id := 1 }, { id := 2 },
        { id := 3, depends_on := [1] },
        { id := 4, depends_on := [2, 3] } ] }

/-- Stale-cache scenario graph: batch X = {1, 2}; batch Y = {4}
depending on batch X. -/
def doc5 : GraphDoc :=
  { project := "Demo",
    batches :=
      [ { id := "X", name := "Batch X", issues := [1, 2] },
        { id := "Y", name := "Batch Y", issues := [4],
          depends_on_batches := ["X"] } ],
    issues := [ { id := 1 }, { id := 2 }, { id := 4 } ] }

/-- A graph whose hard dependencies form the cycle 1 → 2 → 3 → 1. -/
def cyclicDoc : GraphDoc :=
  { project := "Cyclic",
    batches := [ { id := "b", name := "B", issues := [1, 2, 3] } ],
    issues :=
      [ { id := 1, depends_on := [2] },
        { id := 2, depends_on := [3] },
        { id := 3, depends_on := [1] } ] }

/-- A one-issue graph for the CLI exit-code scenarios. -/
def doc9 : GraphDoc :=
  { project := "Tiny",
    batches := [ { id := "b", name := "B", issues := [1] } ],
    issues := [ { id := 1 } ] }

/-- A manager whose batch has `parallel_limit = 2` with two members
already In-Progress and a third Pending member. -/
def limitManager : Manager :=
  { issues :=
      [ { id := 1, batch := "b", status := .inProgress, depends_on := [],
          soft_depends_on := [], blocks := [], conflicts_with := [], files := [] },
        { id := 2, batch := "b", status := .inProgress, depends_on := [],
          soft_depends_on := [], blocks := [], conflicts_with := [], files := [] },
        { id := 3, batch := "b", status := .pending, depends_on := [],
          soft_depends_on := [], blocks := [], conflicts_with := [], files := [] } ],
    batches := [ { id := "b", name := "B", parallel_limit := 2,
                   issues := [1, 2, 3] } ],
    progress := {}, disk := {} }

/-- Issue 10 of the conflict-symmetry scenario: owns `a.ts`,
In-Progress. -/
def issue10 : Issue :=
  { id := 10, batch := "b", status := .inProgress, depends_on := [],
    soft_depends_on := [], blocks := [], conflicts_with := [],
    files := ["a.ts"] }

/-- Issue 11 of the conflict-symmetry scenario: owns `a.ts`,
In-Progress. -/
def issue11 : Issue :=
  { id := 11, batch := "b", status := .inProgress, depends_on := [],
    soft_depends_on := [], blocks := [], conflicts_with := [],
    files := ["a.ts"] }

/-- A manager with issues 10 and 11 both owning file `a.ts` and both
In-Progress, used for the conflict-symmetry scenario. -/
def overlapManager : Manager :=
  { issues := [issue10, issue11],
    batches := [ { id := "b", name := "B", issues := [10, 11] } ],
    progress := {}, disk := {} }

/-- Issue 20 of the explicit-precedence scenario: declares an
explicit conflict with 21 and also owns the same file. -/
def issue20 : Issue :=
  { id := 20, batch := "b", status := .pending, depends_on := [],
    soft_depends_on := [], blocks := [], conflicts_with := [21],
    files := ["shared.ts"] }

/-- Issue 21 of the explicit-precedence scenario: In-Progress, owning
the same file as 20. -/
def issue21 : Issue :=
  { id := 21, batch := "b", status := .inProgress, depends_on := [],
    soft_depends_on := [], blocks := [], conflicts_with := [],
    files := ["shared.ts"] }

/-- A manager where issue 20 explicitly declares a conflict with
issue 21 and both also own the same file, with 21 In-Progress. -/
def explicitManager : Manager :=
  { issues := [issue20, issue21],
    batches := [ { id := "b", name := "B", issues := [20, 21] } ],
    progress := {}, disk := {} }

/-- The ledger status of an issue id: the recorded status string, or
the `"pending"` default when no record exists. -/
def ledgerStatus (p : Progress) (j : Int) : String :=
  ((lookupKey p.issues j).getD {}).status

/-- The chain of entry-point invocations that produces the
stale-batch-cache ledger: issue 4 is failed first (so that the batch
record survives `_on_batch_complete`), issues 1 and 2 complete batch
X, and then issue 1 is moved back to In-Progress. -/
def staleState : Option Progress :=
  (updateFailed doc5 (initialProgress doc5) 4 (some "boom") none "u1").bind
    (fun a => (markComplete doc5 a 1 none "u2").bind
      (fun b => (markComplete doc5 b 2 none "u3").bind
        (fun c => updateInProgress doc5 c 1 "u4")))

/-- A ledger in which issue 1 is recorded Complete. -/
def completeLedger1 : Progress :=
  { issues := [(1, { status := "complete" })] }

/-!  Basic lemmas about the association-list primitives. -/

theorem lookupKey_nil {κ α : Type} [DecidableEq κ] (k : κ) :
    lookupKey ([] : List (κ × α)) k = none := rfl

theorem lookupKey_cons {κ α : Type} [DecidableEq κ]
    (k₁ : κ) (v₁ : α) (rest : List (κ × α)) (k : κ) :
    lookupKey ((k₁, v₁) :: rest) k =
      if k₁ = k then some v₁ else lookupKey rest k := by
  by_cases h : k₁ = k <;> simp [lookupKey, List.find?, h]

theorem setKey_nil {κ α : Type} [DecidableEq κ] (k : κ) (v : α) :
    setKey ([] : List (κ × α)) k v = [(k, v)] := rfl

theorem setKey_cons {κ α : Type} [DecidableEq κ]
    (k₁ : κ) (v₁ : α) (rest : List (κ × α)) (k : κ) (v : α) :
    setKey ((k₁, v₁) :: rest) k v =
      if k₁ = k then (k, v) :: rest else (k₁, v₁) :: setKey rest k v := rfl

theorem lookupKey_setKey_self {κ α : Type} [DecidableEq κ]
    (l : List (κ × α)) (k : κ) (v : α) : lookupKey (setKey l k v) k = some v := by
  induction l with
  | nil => simp [setKey_nil, lookupKey_cons]
  | cons e rest ih =>
    cases e with
    | mk k₁ v₁ =>
      by_cases h : k₁ = k
      · simp [setKey_cons, h, lookupKey_cons]
      · simp [setKey_cons, h, lookupKey_cons, ih]

theorem setKey_of_lookupKey_eq {κ α : Type} [DecidableEq κ]
    {l : List (κ × α)} {k : κ} {v : α} (h : lookupKey l k = some v) :
    setKey l k v = l := by
  induction l with
  | nil => simp [lookupKey_nil] at h
  | cons e rest ih =>
    cases e with
    | mk k₁ v₁ =>
      by_cases he : k₁ = k
      · rw [lookupKey_cons, if_pos he] at h
        cases h
        simp [setKey_cons, he]
      · rw [lookupKey_cons, if_neg he] at h
        simp [setKey_cons, he, ih h]

theorem lookupKey_setKey_ne {κ α : Type} [DecidableEq κ]
    (l : List (κ × α)) {k k' : κ} (v : α) (h : k' ≠ k) :
    lookupKey (setKey l k v) k' = lookupKey l k' := by
  induction l with
  | nil => simp [setKey_nil, lookupKey_cons, lookupKey_nil, Ne.symm h]
  | cons e rest ih =>
    cases e with
    | mk k₁ v₁ =>
      by_cases he : k₁ = k
      · subst he
        simp [setKey_cons, lookupKey_cons, Ne.symm h]
      · simp [setKey_cons, he, lookupKey_cons, ih]

/-- The final value of `self.progress` after the Pending-to-Ready
loop: the re-read on-disk state as soon as any Pending issue was
encountered, the incoming (batch-record-carrying) state otherwise. -/
theorem readyLoop_snd (batches : List BatchDef) (d : Progress)
    (done todo : List Issue) (prog : Progress) :
    (readyLoop batches d done todo prog).2 =
      if todo.any (fun i => i.status = .pending) then d else prog := by
  induction todo generalizing done prog with
  | nil => simp [readyLoop]
  | cons i rest ih =>
    by_cases h : i.status = .pending
    · simp [readyLoop, h, ih]
    · simp [readyLoop, h, ih]

/-!  Claim theorems. -/

/-- C2 counterexample: the graph whose hard dependencies form the
cycle 1 → 2 → 3 → 1 loads successfully — no configuration error is
raised, the cyclic graph is silently accepted into a scheduler. -/
theorem cyclic_graph_loads_without_error :
    (cyclicDoc.issues.map (fun d => (d.id, d.depends_on)))
        = [(1, [2]), (2, [3]), (3, [1])]
      ∧ (load cyclicDoc {}).isSome = true := by
  constructor
  · rfl
  · rfl

/-- C6 (confirmed): for the graph with batch X = {1, 2} and batch
Y = {3 depends_on [1], 4 depends_on [2, 3]} where Y depends on batch
X, with each CLI invocation loading a fresh manager from the ledger:
`ready_issues()` initially returns [1, 2]; after marking 1 and 2
complete it returns [3]; after marking 3 complete it returns [4]. -/
theorem ready_issues_end_to_end :
    ((load doc6 (initialProgress doc6)).map
        (fun m => m.getReadyIssues none) = some [1, 2])
    ∧ ((markComplete doc6 (initialProgress doc6) 1 none "t1").bind (fun p1 =>
        (markComplete doc6 p1 2 none "t2").bind (fun p2 =>
          (load doc6 p2).map (fun m => m.getReadyIssues none)))
        = some [3])
    ∧ ((markComplete doc6 (initialProgress doc6) 1 none "t1").bind (fun p1 =>
        (markComplete doc6 p1 2 none "t2").bind (fun p2 =>
          (markComplete doc6 p2 3 none "t3").bind (fun p3 =>
            (load doc6 p3).map (fun m => m.getReadyIssues none))))
        = some [4]) := by
  refine ⟨rfl, rfl, rfl⟩

/-- C9 (code bug): through the `update-progress` command, success
exits 0 and an unknown issue or a missing `--reason` for `failed`
exit 1, but an invalid status string is rejected by `argparse`'s
`choices` validation, which exits with status 2 — not 1 as the claim
(and the script's own epilog) state. -/
theorem update_progress_exit_codes :
    updateProgressMain doc9 {} 1 "complete" none none "w" = 0
    ∧ updateProgressMain doc9 {} 99 "complete" none none "w" = 1
    ∧ updateProgressMain doc9 {} 1 "failed" none none "w" = 1
    ∧ updateProgressMain doc9 {} 1 "done" none none "w" = 2 := by
  refine ⟨rfl, rfl, rfl, rfl⟩

/-- C3 counterexample: issue 1 is recorded Complete in the ledger,
yet the `failed` transition of the update-progress entry point moves
it to status `failed`, and in the resulting state `can_start(1)`
returns true. -/
theorem complete_issue_moved_backward :
    ledgerStatus completeLedger1 1 = "complete"
    ∧ (updateFailed doc9 completeLedger1 1 (some "r") none "v1").map
        (fun p => (ledgerStatus p 1,
          (load doc9 p).map (fun m => m.canStartIssue 1)))
        = some ("failed", some (true, none)) := by
  refine ⟨rfl, rfl⟩

/-- C5 counterexample: in the ledger produced by the entry-point
trace of `staleState`, batch X = {1, 2} carries a cached `complete`
record while its member issue 1 is recorded In-Progress; a freshly
loaded manager nevertheless treats batch X as Complete, and
`can_start(4)` (whose batch Y depends on X) returns `(true, none)`. -/
theorem stale_batch_cache_claims_completion :
    ((doc5.batches.map (fun b => (b.id, b.issues))) = [("X", [1, 2]), ("Y", [4])])
    ∧ staleState.map (fun p => (ledgerStatus p 1,
        (lookupKey p.batches "X").map (fun br => br.status),
        (load doc5 p).map (fun m =>
          (m.isBatchComplete "X", m.canStartIssue 4))))
      = some ("in_progress", some "complete", some (true, true, none)) := by
  refine ⟨rfl, rfl⟩

/-- Specification-side reading of derived batch completion: every
member issue of the batch is present with status Complete. -/
def batchMembersComplete (m : Manager) (bid : String) : Bool :=
  match m.findBatch bid with
  | none => false
  | some b => b.issues.all (fun iid => m.idHasStatus iid .complete)

/-- Specification-side reading of the cached batch record: the
ledger's per-batch record exists and claims `complete`. -/
def cachedBatchComplete (m : Manager) (bid : String) : Bool :=
  (lookupKey m.progress.batches bid).any (fun br => br.status = "complete")

/-- C5 amended: `_is_batch_complete` treats a batch as Complete iff
the cached ledger batch record claims completion OR every member
issue is Complete; the cache is consulted first and is never
re-validated against member statuses, so batch completion is only
re-derived from issue statuses when no cached record claims it. -/
theorem isBatchComplete_eq_cache_or_members (m : Manager) (bid : String) :
    m.isBatchComplete bid =
      (cachedBatchComplete m bid || batchMembersComplete m bid) := by
  unfold Manager.isBatchComplete cachedBatchComplete batchMembersComplete
  by_cases h : (lookupKey m.progress.batches bid).any
      (fun br => br.status = "complete")
  · simp [h]
  · simp [h]

/-- C2 amended: loading performs no cycle validation at all — for
every graph document (cyclic hard dependencies included) and every
ledger whose recorded status strings parse, loading succeeds. -/
theorem buildIssues_isSome (batches : List BatchDef) (p : Progress)
    (ds : List IssueDef)
    (h : ∀ d ∈ ds,
      (IssueStatus.ofString
        (((lookupKey p.issues d.id).getD {}).status)).isSome = true) :
    (buildIssues batches p ds).isSome = true := by
  induction ds with
  | nil => simp [buildIssues]
  | cons d ds ih =>
    have hd := h d (by simp)
    have hihead : (buildIssue batches p d).isSome = true := by
      unfold buildIssue
      simpa using hd
    have hirest := ih (fun x hx => h x (by simp [hx]))
    unfold buildIssues
    cases h1 : buildIssue batches p d with
    | none => rw [h1] at hihead; simp at hihead
    | some i =>
      cases h2 : buildIssues batches p ds with
      | none => rw [h2] at hirest; simp at hirest
      | some is => simp

theorem load_succeeds_without_cycle_check (doc : GraphDoc) (p : Progress)
    (h : ∀ d ∈ doc.issues,
      (IssueStatus.ofString
        (((lookupKey p.issues d.id).getD {}).status)).isSome = true) :
    (load doc p).isSome = true := by
  have hs := buildIssues_isSome doc.batches p doc.issues h
  obtain ⟨is, his⟩ := Option.isSome_iff_exists.1 hs
  unfold load
  rw [his]
  rfl

/-- Closed witness for the C2 amended theorem: the cyclic graph's
ledger statuses all parse, so loading it succeeds. -/
theorem load_succeeds_without_cycle_check_witness :
    (load cyclicDoc {}).isSome = true :=
  load_succeeds_without_cycle_check cyclicDoc {} (by decide)

/-- `can_start_issue` agrees everywhere with the check list evaluated
in the specification's order, first failing reason returned. -/
theorem canStart_eq_spec (m : Manager) (iid : Int) :
    m.canStartIssue iid = canStartSpec m iid := by
  unfold Manager.canStartIssue canStartSpec
  cases hf : ({ m with progress := m.disk } : Manager).findIssue iid with
  | none => simp [hf]
  | some issue =>
    simp only [hf]
    unfold canStartChecks
    by_cases h1 : issue.status = .complete
    · simp [h1, List.reduceOption]
    · by_cases h2 : issue.status = .inProgress
      · simp [h1, h2, List.reduceOption]
      · cases h3 : (({ m with progress := m.disk } : Manager).findBatch
            issue.batch).bind (fun b => b.depends_on_batches.find?
              (fun d => ¬ ({ m with progress := m.disk } : Manager).isBatchComplete d)) with
        | some d => simp [h1, h2, h3, List.reduceOption]
        | none =>
          cases h4 : issue.depends_on.find? (fun d =>
              ¬ ({ m with progress := m.disk } : Manager).idHasStatus d .complete) with
          | some d => simp [h1, h2, h3, h4, List.reduceOption]
          | none =>
            by_cases h5 : (({ m with progress := m.disk } : Manager).detectConflicts
                iid).isEmpty
            · cases hb : ({ m with progress := m.disk } : Manager).findBatch
                  issue.batch with
              | none => simp [h1, h2, h3, h4, h5, hb, List.reduceOption]
              | some b =>
                by_cases h6 : ((({ m with progress := m.disk } : Manager).inProgressCount
                    b : Int) ≥ b.parallel_limit)
                · simp [h1, h2, h3, h4, h5, hb, h6, List.reduceOption]
                · simp [h1, h2, h3, h4, h5, hb, h6, List.reduceOption]
            · simp [h1, h2, h3, h4, h5, List.reduceOption]

/-- C1 (confirmed): `can_start` evaluates its six checks
short-circuiting in exactly the specified order, returning false with
the first failing reason, and in particular a batch with
`parallel_limit = 2` and two members In-Progress blocks a third
member with the parallel-limit reason. -/
theorem can_start_check_order :
    (∀ (m : Manager) (iid : Int), m.canStartIssue iid = canStartSpec m iid)
    ∧ limitManager.canStartIssue 3 = (false, some (Reason.parallelLimit "b" 2)) :=
  ⟨canStart_eq_spec, rfl⟩

/-- A conflict record always carries the id of the In-Progress issue
it was generated from. -/
theorem conflictRecord_issue_id {A x : Issue} {c : Conflict}
    (h : conflictRecord A x = some c) : c.issue_id = x.id := by
  unfold conflictRecord at h
  by_cases h1 : x.id ∈ A.conflicts_with
  · rw [if_pos h1] at h
    cases h
    rfl
  · rw [if_neg h1] at h
    by_cases h2 : (fileOverlap A.files x.files).isEmpty
    · simp [h2] at h
    · simp only [h2, Bool.false_eq_true, if_false, Option.some.injEq] at h
      rw [← h]

/-- No conflict record against id `b` arises from a list containing
no issue with id `b`. -/
theorem detect_filter_nil (A : Issue) (b : Int) (l : List Issue)
    (h : ∀ x ∈ l, x.id ≠ b) :
    ((l.filter (fun i => i.status = .inProgress)).filterMap
        (conflictRecord A)).filter (fun c => c.issue_id = b) = [] := by
  induction l with
  | nil => simp
  | cons i rest ih =>
    have hi := h i (by simp)
    have hr : ∀ x ∈ rest, x.id ≠ b :=
      fun x hx => h x (List.mem_cons_of_mem _ hx)
    by_cases hs : i.status = .inProgress
    · rw [List.filter_cons_of_pos (by simp [hs])]
      cases hc : conflictRecord A i with
      | none => simp only [List.filterMap_cons, hc]; exact ih hr
      | some c =>
        have hid : c.issue_id = i.id := conflictRecord_issue_id hc
        simp only [List.filterMap_cons, hc]
        rw [List.filter_cons_of_neg (by simp [hid, hi])]
        exact ih hr
    · rw [List.filter_cons_of_neg (by simp [hs])]
      exact ih hr

/-- The record list `detect_conflicts` contributes for one candidate
issue lookup result. -/
def recordsFor (A : Issue) (ob : Option Issue) : List Conflict :=
  match ob with
  | some B => if B.status = .inProgress then (conflictRecord A B).toList else []
  | none => []

/-- Characterization of the conflict records `detect_conflicts`
reports against a fixed id `b`, over an issue index with unique ids:
exactly the (at most one) record generated from the unique issue `B`
with id `b`, when it is In-Progress. -/
theorem detect_filter_aux (A : Issue) (b : Int) (l : List Issue)
    (hdup : (l.map (fun i => i.id)).Nodup) :
    ((l.filter (fun i => i.status = .inProgress)).filterMap
        (conflictRecord A)).filter (fun c => c.issue_id = b) =
      recordsFor A (l.find? (fun i => i.id = b)) := by
  induction l with
  | nil => simp [recordsFor]
  | cons i rest ih =>
    rw [List.map_cons, List.nodup_cons] at hdup
    obtain ⟨hni, hrest⟩ := hdup
    by_cases hib : i.id = b
    · rw [List.find?_cons_of_pos _ (by simp [hib])]
      have hrb : ∀ x ∈ rest, x.id ≠ b := by
        intro x hx hxb
        apply hni
        rw [hib, ← hxb]
        exact List.mem_map_of_mem (fun i => i.id) hx
      by_cases hs : i.status = .inProgress
      · rw [List.filter_cons_of_pos (by simp [hs])]
        rw [recordsFor, if_pos hs]
        cases hc : conflictRecord A i with
        | none =>
          simp only [List.filterMap_cons, hc, Option.toList_none]
          exact detect_filter_nil A b rest hrb
        | some c =>
          have hid : c.issue_id = i.id := conflictRecord_issue_id hc
          simp only [List.filterMap_cons, hc, Option.toList_some]
          rw [List.filter_cons_of_pos (by simp [hid, hib])]
          rw [detect_filter_nil A b rest hrb]
      · rw [List.filter_cons_of_neg (by simp [hs])]
        rw [recordsFor, if_neg hs]
        exact detect_filter_nil A b rest hrb
    · rw [List.find?_cons_of_neg _ (by simp [hib])]
      by_cases hs : i.status = .inProgress
      · rw [List.filter_cons_of_pos (by simp [hs])]
        cases hc : conflictRecord A i with
        | none => simp only [List.filterMap_cons, hc]; exact ih hrest
        | some c =>
          have hid : c.issue_id = i.id := conflictRecord_issue_id hc
          simp only [List.filterMap_cons, hc]
          rw [List.filter_cons_of_neg (by simp [hid, hib])]
          exact ih hrest
      · rw [List.filter_cons_of_neg (by simp [hs])]
        exact ih hrest

/-- Unfolding of `detect_conflicts` on a found issue. -/
theorem detectConflicts_of_found {m : Manager} {a : Int} {A : Issue}
    (hA : m.findIssue a = some A) :
    m.detectConflicts a =
      (m.issues.filter (fun i => i.status = .inProgress)).filterMap
        (conflictRecord A) := by
  unfold Manager.detectConflicts
  rw [hA]

/-- C10 (confirmed): over an index with unique ids, `detect_conflicts`
reports at most one record per In-Progress issue `B`, and when `B`'s
id appears in the queried issue's `conflicts_with` the unique record
is the `explicit` one with an empty files list — the file-overlap
check is skipped. -/
theorem explicit_conflict_precedence
    (m : Manager) (a b : Int) (A B : Issue)
    (hdup : (m.issues.map (fun i => i.id)).Nodup)
    (hA : m.findIssue a = some A) (hB : m.findIssue b = some B)
    (hin : B.status = .inProgress) :
    ((m.detectConflicts a).filter (fun c => c.issue_id = b)).length ≤ 1
    ∧ (b ∈ A.conflicts_with →
        (m.detectConflicts a).filter (fun c => c.issue_id = b)
          = [{ issue_id := b, type := "explicit",
               reason := "Explicit conflict relationship", files := [] }]) := by
  have hBid : B.id = b := by simpa using List.find?_some hB
  rw [detectConflicts_of_found hA,
      detect_filter_aux A b m.issues hdup,
      show m.issues.find? (fun i => i.id = b) = some B from hB,
      recordsFor, if_pos hin]
  constructor
  · cases conflictRecord A B <;> simp
  · intro hmem
    rw [conflictRecord, if_pos (hBid ▸ hmem), Option.toList_some, hBid]

/-- Closed witness for C10: issue 20 declares an explicit conflict
with In-Progress issue 21 although both own `shared.ts`; the single
record reported is the explicit one with an empty files list. -/
theorem explicit_conflict_precedence_witness :
    ((explicitManager.detectConflicts 20).filter
        (fun c => c.issue_id = 21)).length ≤ 1
    ∧ (21 ∈ issue20.conflicts_with →
        (explicitManager.detectConflicts 20).filter (fun c => c.issue_id = 21)
          = [⟨21, "explicit", "Explicit conflict relationship", []⟩]) :=
  explicit_conflict_precedence explicitManager 20 21 issue20 issue21
    (by decide) (by decide) (by decide) (by decide)

/-- One direction of the conflict-symmetry property: when `B` (with
id `b`) is In-Progress and shares an owned file with `A`,
`detect_conflicts` on `A`'s id reports a record against `b`, of type
`file_conflict` listing exactly the overlapping paths whenever no
explicit declaration applies. -/
theorem detect_reports_overlap
    (m : Manager) (a b : Int) (A B : Issue)
    (hdup : (m.issues.map (fun i => i.id)).Nodup)
    (hA : m.findIssue a = some A) (hB : m.findIssue b = some B)
    (hov : ∃ f, f ∈ A.files ∧ f ∈ B.files)
    (hin : B.status = .inProgress) :
    ∃ c ∈ m.detectConflicts a, c.issue_id = b ∧
      (b ∉ A.conflicts_with → c.type = "file_conflict" ∧
        ∀ f, (f ∈ c.files ↔ f ∈ A.files ∧ f ∈ B.files)) := by
  have hBid : B.id = b := by simpa using List.find?_some hB
  have hchar := detect_filter_aux A b m.issues hdup
  rw [show m.issues.find? (fun i => i.id = b) = some B from hB,
      recordsFor, if_pos hin] at hchar
  rw [← detectConflicts_of_found hA] at hchar
  by_cases hmem : B.id ∈ A.conflicts_with
  · refine ⟨⟨B.id, "explicit", "Explicit conflict relationship", []⟩, ?_, ?_, ?_⟩
    · have hmemf : (⟨B.id, "explicit", "Explicit conflict relationship", []⟩ :
          Conflict) ∈ (m.detectConflicts a).filter (fun c => c.issue_id = b) := by
        rw [hchar, conflictRecord, if_pos hmem]
        simp
      exact List.mem_of_mem_filter hmemf
    · exact hBid
    · intro hnot
      exact absurd (hBid ▸ hmem) hnot
  · have hne : ¬ (fileOverlap A.files B.files).isEmpty := by
      obtain ⟨f, hfa, hfb⟩ := hov
      have : f ∈ fileOverlap A.files B.files := by
        unfold fileOverlap
        rw [List.mem_dedup, List.mem_filter]
        exact ⟨hfa, by simpa using hfb⟩
      intro he
      rw [List.isEmpty_iff] at he
      rw [he] at this
      simp at this
    refine ⟨⟨B.id, "file_conflict", "Modifying same files",
      fileOverlap A.files B.files⟩, ?_, ?_, ?_⟩
    · have hmemf : (⟨B.id, "file_conflict", "Modifying same files",
          fileOverlap A.files B.files⟩ : Conflict)
          ∈ (m.detectConflicts a).filter (fun c => c.issue_id = b) := by
        rw [hchar, conflictRecord, if_neg hmem]
        simp only [hne, Bool.false_eq_true, if_false]
        simp
      exact List.mem_of_mem_filter hmemf
    · exact hBid
    · intro _
      refine ⟨rfl, fun f => ?_⟩
      unfold fileOverlap
      rw [List.mem_dedup, List.mem_filter]
      simp

/-- C7 (confirmed): file-overlap conflict detection is symmetric in
behaviour — for two distinct issues with overlapping owned-file sets,
whichever of the two is In-Progress is reported by `conflicts` on the
other one's id, as a `file_conflict` listing exactly the overlapping
paths whenever no explicit `conflicts_with` declaration applies. -/
theorem file_conflict_symmetric
    (m : Manager) (a b : Int) (A B : Issue)
    (hdup : (m.issues.map (fun i => i.id)).Nodup)
    (_hab : a ≠ b)
    (hA : m.findIssue a = some A) (hB : m.findIssue b = some B)
    (hov : ∃ f, f ∈ A.files ∧ f ∈ B.files) :
    (B.status = .inProgress →
      ∃ c ∈ m.detectConflicts a, c.issue_id = b ∧
        (b ∉ A.conflicts_with → c.type = "file_conflict" ∧
          ∀ f, (f ∈ c.files ↔ f ∈ A.files ∧ f ∈ B.files)))
    ∧ (A.status = .inProgress →
      ∃ c ∈ m.detectConflicts b, c.issue_id = a ∧
        (a ∉ B.conflicts_with → c.type = "file_conflict" ∧
          ∀ f, (f ∈ c.files ↔ f ∈ B.files ∧ f ∈ A.files))) := by
  constructor
  · intro hin
    exact detect_reports_overlap m a b A B hdup hA hB hov hin
  · intro hin
    exact detect_reports_overlap m b a B A hdup hB hA
      (by obtain ⟨f, h1, h2⟩ := hov; exact ⟨f, h2, h1⟩) hin

/-- Closed witness for C7: issues 10 and 11 both own `a.ts` and both
are In-Progress; each one's `conflicts` reports the other with the
overlapping path. -/
theorem file_conflict_symmetric_witness :
    (∃ c ∈ overlapManager.detectConflicts 10, c.issue_id = 11 ∧
      (11 ∉ ([] : List Int) → c.type = "file_conflict" ∧
        ∀ f, (f ∈ c.files ↔ f ∈ ["a.ts"] ∧ f ∈ ["a.ts"])))
    ∧ (∃ c ∈ overlapManager.detectConflicts 11, c.issue_id = 10 ∧
      (10 ∉ ([] : List Int) → c.type = "file_conflict" ∧
        ∀ f, (f ∈ c.files ↔ f ∈ ["a.ts"] ∧ f ∈ ["a.ts"]))) := by
  have h := file_conflict_symmetric overlapManager 10 11 issue10 issue11
    (by decide) (by decide) (by decide) (by decide) ⟨"a.ts", by decide, by decide⟩
  exact ⟨h.1 (by decide), h.2 (by decide)⟩

/-- `len(all_files) == len(set(all_files))` is exactly
duplicate-freeness of the concatenation. -/
theorem dedup_length_eq_iff {α : Type} [DecidableEq α] {l : List α} :
    (l.dedup.length = l.length) ↔ l.Nodup := by
  constructor
  · intro h
    rw [← List.dedup_eq_self]
    exact (List.dedup_sublist l).eq_of_length h
  · intro h
    rw [List.dedup_eq_self.2 h]

/-- The comparison key of `_sort_by_priority`. -/
def priorityLe (x y : Issue) : Bool :=
  x.depends_on.length ≤ y.depends_on.length

/-- C8 (confirmed): on the `partition` strategy, `resolve_conflict`
returns an allow-parallel action for every known issue exactly when
the concatenation of their owned-file lists has no duplicate path,
and otherwise returns exactly the `sequential` result — an ordered
queue sorted by ascending hard-dependency count. -/
theorem resolve_partition_characterization (m : Manager) (ids : List Int) :
    ∃ r, m.resolveConflict "partition" ids = some r ∧
      ((∀ i ∈ ids.filterMap m.findIssue,
          ∃ a ∈ r.actions, a = ResAction.allowParallel i.id i.files)
        ↔ ((ids.filterMap m.findIssue).flatMap (fun i => i.files)).Nodup) ∧
      (¬ ((ids.filterMap m.findIssue).flatMap (fun i => i.files)).Nodup →
        m.resolveConflict "partition" ids = m.resolveConflict "sequential" ids) ∧
      (∃ q, m.resolveConflict "sequential" ids = some q ∧
        q.actions = (m.sortByPriority ids).map ResAction.queue ∧
        ((ids.filterMap m.findIssue).mergeSort priorityLe).Pairwise
          (fun x y => x.depends_on.length ≤ y.depends_on.length)) := by
  have hseq : m.resolveConflict "sequential" ids
      = some (m.sequentialResolution ids) := by
    unfold Manager.resolveConflict
    rw [if_pos rfl]
  have hsorted : ((ids.filterMap m.findIssue).mergeSort priorityLe).Pairwise
      (fun x y => x.depends_on.length ≤ y.depends_on.length) := by
    have hp := @List.sorted_mergeSort Issue priorityLe
      (fun a b c hab hbc => by
        unfold priorityLe at *
        simp only [decide_eq_true_eq] at *
        omega)
      (fun a b => by
        unfold priorityLe
        rcases Nat.le_total a.depends_on.length b.depends_on.length with h | h
        · simp [h]
        · simp [h])
      (ids.filterMap m.findIssue)
    exact hp.imp (fun h => by simpa [priorityLe] using h)
  have hseqgoal : ∃ q, m.resolveConflict "sequential" ids = some q ∧
      q.actions = (m.sortByPriority ids).map ResAction.queue ∧
      ((ids.filterMap m.findIssue).mergeSort priorityLe).Pairwise
        (fun x y => x.depends_on.length ≤ y.depends_on.length) :=
    ⟨m.sequentialResolution ids, hseq, rfl, hsorted⟩
  by_cases hnd : ((ids.filterMap m.findIssue).flatMap (fun i => i.files)).Nodup
  · have hpart : m.attemptFilePartition ids
        = some ((ids.filterMap m.findIssue).map
            (fun i => ResAction.allowParallel i.id i.files)) := by
      unfold Manager.attemptFilePartition
      rw [if_pos (dedup_length_eq_iff.2 hnd)]
    by_cases hobjs : ids.filterMap m.findIssue = []
    · rw [hobjs] at hpart
      refine ⟨m.sequentialResolution ids, ?_, ?_, ?_, hseqgoal⟩
      · unfold Manager.resolveConflict
        rw [if_neg (by decide), if_pos rfl, hpart, List.map_nil]
      · rw [hobjs]
        simp [hnd]
      · intro hc
        exact absurd hnd hc
    · obtain ⟨o, os, hoos⟩ := List.exists_cons_of_ne_nil hobjs
      refine ⟨⟨"partition",
          (ids.filterMap m.findIssue).map
            (fun i => ResAction.allowParallel i.id i.files),
          "Files partitioned successfully"⟩, ?_, ?_, ?_, hseqgoal⟩
      · unfold Manager.resolveConflict
        rw [if_neg (by decide), if_pos rfl, hpart]
        rw [hoos, List.map_cons]
      · simp only [hnd, iff_true]
        intro i hi
        exact ⟨ResAction.allowParallel i.id i.files,
          List.mem_map_of_mem _ hi, rfl⟩
      · intro hc
        exact absurd hnd hc
  · have hpart : m.attemptFilePartition ids = none := by
      unfold Manager.attemptFilePartition
      rw [if_neg (fun hlen => hnd (dedup_length_eq_iff.1 hlen))]
    have hres : m.resolveConflict "partition" ids
        = some (m.sequentialResolution ids) := by
      unfold Manager.resolveConflict
      rw [if_neg (by decide), if_pos rfl, hpart]
    refine ⟨m.sequentialResolution ids, hres, ?_, ?_, hseqgoal⟩
    · simp only [hnd, iff_false]
      intro hall
      have hobjs : ids.filterMap m.findIssue ≠ [] := by
        intro he
        rw [he] at hnd
        simp at hnd
      obtain ⟨o, ho⟩ := List.exists_mem_of_ne_nil _ hobjs
      obtain ⟨a, ha, hae⟩ := hall o ho
      unfold Manager.sequentialResolution at ha
      simp only at ha
      obtain ⟨j, _, hj⟩ := List.mem_map.1 ha
      rw [← hj] at hae
      exact ResAction.noConfusion hae
    · intro _
      rw [hres, hseq]

/-- The issue table of the ledger `mark_complete` saves is always the
base one — the batch-record bookkeeping never touches issue entries. -/
theorem markCompleteAux_issues (m : Manager) (p : Progress) (iid : Int)
    (issue : Issue) (url : Option String) (t : String) :
    (markCompleteAux m p iid issue url t).issues
      = setKey p.issues iid (completionRecord issue url t) := by
  simp only [markCompleteAux]
  split
  · rfl
  · split
    · rw [readyLoop_snd]
      split
      · rfl
      · rfl
    · rfl

/-- `mark_complete` always refreshes `updated_at`. -/
theorem markCompleteAux_updated_at (m : Manager) (p : Progress) (iid : Int)
    (issue : Issue) (url : Option String) (t : String) :
    (markCompleteAux m p iid issue url t).updated_at = some t := by
  simp only [markCompleteAux]
  split
  · rfl
  · split
    · rw [readyLoop_snd]
      split
      · rfl
      · rfl
    · rfl

/-- Evaluation of `mark_complete` on a loadable ledger with a found
issue. -/
theorem markComplete_eq_aux {doc : GraphDoc} {p : Progress} {iid : Int}
    {url : Option String} {t : String} {m : Manager} {issue : Issue}
    (hm : load doc p = some m) (hf : m.findIssue iid = some issue) :
    markComplete doc p iid url t = some (markCompleteAux m p iid issue url t) := by
  simp only [markComplete, hm, hf]

/-- Inversion of a successful `mark_complete`: the manager loaded,
the issue was found, and the result is the auxiliary body. -/
theorem markComplete_inv {doc : GraphDoc} {p : Progress} {iid : Int}
    {url : Option String} {t : String} {p' : Progress}
    (h : markComplete doc p iid url t = some p') :
    ∃ m issue, load doc p = some m ∧ m.findIssue iid = some issue ∧
      p' = markCompleteAux m p iid issue url t := by
  unfold markComplete at h
  split at h
  · exact absurd h (by simp)
  · next m hm =>
    split at h
    · exact absurd h (by simp)
    · next issue hissue =>
      exact ⟨m, issue, hm, hissue, (Option.some.inj h).symm⟩

/-- C3 amended: `mark_complete` never moves any Complete-recorded
issue to a non-Complete ledger status (its own target included); but
the `in_progress` and `failed` transitions of the update-progress
entry point lack a backward-transition guard and do overwrite a
Complete status, after which `can_start` may return true again (see
the counterexample). -/
theorem markComplete_preserves_complete (doc : GraphDoc) (p : Progress)
    (iid : Int) (url : Option String) (t : String) (j : Int) (p' : Progress)
    (h : markComplete doc p iid url t = some p')
    (hc : ledgerStatus p j = "complete") : ledgerStatus p' j = "complete" := by
  obtain ⟨m, issue, hm, hissue, hp'⟩ := markComplete_inv h
  rw [hp']
  unfold ledgerStatus
  rw [markCompleteAux_issues]
  by_cases hj : j = iid
  · rw [hj, lookupKey_setKey_self]
    rfl
  · rw [lookupKey_setKey_ne _ _ hj]
    exact hc

/-- `mark_complete`'s in-memory mutation never changes the batch
field. -/
theorem completeIssueObj_batch (i : Issue) (url : Option String) (t : String) :
    (completeIssueObj i url t).batch = i.batch := rfl

/-- The pointwise effect on a loaded issue of re-loading it from a
ledger whose entry for `iid` was overwritten with a completion
record (status Complete, started `s0`, completed at `t`, url). -/
def updIssue (iid : Int) (s0 : Option String) (url : Option String)
    (t : String) (i : Issue) : Issue :=
  if i.id = iid then
    { i with status := IssueStatus.complete, started_at := s0,
             completed_at := some t, pr_url := url }
  else i

/-- The (id, status) signature of a loaded issue: everything the
persisted outcome of a transition can depend on. -/
def sig (i : Issue) : Int × IssueStatus := (i.id, i.status)

/-- Inversion of a successful load. -/
theorem load_inv {doc : GraphDoc} {p : Progress} {m : Manager}
    (h : load doc p = some m) :
    buildIssues doc.batches p doc.issues = some m.issues
    ∧ m.batches = doc.batches ∧ m.progress = p ∧ m.disk = p := by
  unfold load at h
  cases hb : buildIssues doc.batches p doc.issues with
  | none => rw [hb] at h; exact absurd h (by simp)
  | some is =>
    rw [hb] at h
    have := Option.some.inj h
    rw [← this]
    exact ⟨rfl, rfl, rfl, rfl⟩

/-- A built issue carries its definition's id. -/
theorem buildIssue_id {batches : List BatchDef} {p : Progress}
    {d : IssueDef} {i : Issue} (h : buildIssue batches p d = some i) :
    i.id = d.id := by
  unfold buildIssue at h
  obtain ⟨st, _, hi⟩ := Option.map_eq_some'.1 h
  rw [← hi]

/-- Re-loading one issue from the ledger with the completion record
written for `iid` yields exactly the `updIssue` image. -/
theorem buildIssue_setKey (batches : List BatchDef) (p p' : Progress)
    (iid : Int) (s0 url : Option String) (t : String)
    (hp' : p'.issues = setKey p.issues iid ⟨"complete", s0, some t, url, none⟩)
    (d : IssueDef) (i : Issue) (h : buildIssue batches p d = some i) :
    buildIssue batches p' d = some (updIssue iid s0 url t i) := by
  have hid : i.id = d.id := buildIssue_id h
  by_cases hd : d.id = iid
  · unfold buildIssue at h ⊢
    rw [hp', hd, lookupKey_setKey_self]
    obtain ⟨st, _, hi⟩ := Option.map_eq_some'.1 h
    rw [← hi]
    simp [updIssue, hid, hd, IssueStatus.ofString]
  · unfold buildIssue at h ⊢
    rw [hp', lookupKey_setKey_ne _ _ hd]
    rw [h]
    unfold updIssue
    rw [if_neg (by rw [hid]; exact hd)]

/-- Re-loading the whole issue list from the completion-updated
ledger maps `updIssue` over the previously loaded list. -/
theorem buildIssues_setKey (batches : List BatchDef) (p p' : Progress)
    (iid : Int) (s0 url : Option String) (t : String)
    (hp' : p'.issues = setKey p.issues iid ⟨"complete", s0, some t, url, none⟩)
    (ds : List IssueDef) (l : List Issue)
    (h : buildIssues batches p ds = some l) :
    buildIssues batches p' ds = some (l.map (updIssue iid s0 url t)) := by
  induction ds generalizing l with
  | nil =>
    unfold buildIssues at h
    cases h
    rfl
  | cons d ds ih =>
    unfold buildIssues at h
    cases h1 : buildIssue batches p d with
    | none => rw [h1] at h; simp at h
    | some i =>
      cases h2 : buildIssues batches p ds with
      | none => rw [h1, h2] at h; simp at h
      | some is =>
        rw [h1, h2] at h
        have hl : l = i :: is := (Option.some.inj h).symm
        subst hl
        unfold buildIssues
        rw [buildIssue_setKey batches p p' iid s0 url t hp' d i h1, ih is h2]
        rfl

/-- Re-loading a manager from the completion-updated ledger yields
the `updIssue` image of the original index. -/
theorem load_setKey (doc : GraphDoc) (p p' : Progress) (m : Manager)
    (iid : Int) (s0 url : Option String) (t : String)
    (hp' : p'.issues = setKey p.issues iid ⟨"complete", s0, some t, url, none⟩)
    (h : load doc p = some m) :
    load doc p'
      = some ⟨m.issues.map (updIssue iid s0 url t), doc.batches, p', p'⟩ := by
  obtain ⟨hb, _, _, _⟩ := load_inv h
  unfold load
  rw [buildIssues_setKey doc.batches p p' iid s0 url t hp' doc.issues m.issues hb]
  rfl

/-- `find?` by id commutes with an id-preserving map. -/
theorem find?_map_of_id_preserved (f : Issue → Issue)
    (hf : ∀ i, (f i).id = i.id) (l : List Issue) (k : Int) :
    (l.map f).find? (fun i => i.id = k) = (l.find? (fun i => i.id = k)).map f := by
  induction l with
  | nil => rfl
  | cons i rest ih =>
    by_cases hk : i.id = k
    · rw [List.map_cons, List.find?_cons_of_pos _ (by simp [hf, hk]),
        List.find?_cons_of_pos _ (by simp [hk])]
      rfl
    · rw [List.map_cons, List.find?_cons_of_neg _ (by simp [hf, hk]),
        List.find?_cons_of_neg _ (by simp [hk])]
      exact ih

/-- A status scan factors through the signature projection. -/
theorem any_status_eq_any_sig (l : List Issue) (st : IssueStatus) :
    l.any (fun i => i.status = st) = (l.map sig).any (fun pr => pr.2 = st) := by
  induction l with
  | nil => rfl
  | cons i rest ih => simp [sig, ih]

/-- Signature-equal lists agree on any status scan. -/
theorem any_status_congr {l l' : List Issue} (h : l.map sig = l'.map sig)
    (st : IssueStatus) :
    l.any (fun i => i.status = st) = l'.any (fun i => i.status = st) := by
  rw [any_status_eq_any_sig, any_status_eq_any_sig, h]

/-- Signature-equal lists agree on any id-keyed status lookup. -/
theorem find_status_congr {l l' : List Issue} (h : l.map sig = l'.map sig)
    (k : Int) (st : IssueStatus) :
    (l.find? (fun i => i.id = k)).any (fun i => i.status = st)
      = (l'.find? (fun i => i.id = k)).any (fun i => i.status = st) := by
  induction l generalizing l' with
  | nil =>
    cases l' with
    | nil => rfl
    | cons j rest' => simp at h
  | cons i rest ih =>
    cases l' with
    | nil => simp at h
    | cons j rest' =>
      rw [List.map_cons, List.map_cons] at h
      have hh := List.cons.inj h
      have hid : i.id = j.id := congrArg Prod.fst hh.1
      have hst : i.status = j.status := congrArg Prod.snd hh.1
      by_cases hk : i.id = k
      · rw [List.find?_cons_of_pos _ (by simp [hk]),
          List.find?_cons_of_pos _ (by simp [← hid, hk])]
        simp [hst]
      · rw [List.find?_cons_of_neg _ (by simp [hk]),
          List.find?_cons_of_neg _ (by simp [← hid, hk])]
        exact ih hh.2

/-- `_is_batch_complete` only depends on the progress, the batch
index, and the issue signatures. -/
theorem isBatchComplete_congr {issues issues' : List Issue}
    (h : issues.map sig = issues'.map sig) (batches : List BatchDef)
    (prog disk disk' : Progress) (bid : String) :
    Manager.isBatchComplete ⟨issues, batches, prog, disk⟩ bid
      = Manager.isBatchComplete ⟨issues', batches, prog, disk'⟩ bid := by
  unfold Manager.isBatchComplete
  by_cases hc : (lookupKey prog.batches bid).any (fun br => br.status = "complete")
  · simp only [hc, if_true]
  · simp only [hc, if_false]
    unfold Manager.findBatch
    cases batches.find? (fun b => b.id = bid) with
    | none => rfl
    | some b =>
      simp only []
      have : ∀ k, Manager.idHasStatus ⟨issues, batches, prog, disk⟩ k .complete
          = Manager.idHasStatus ⟨issues', batches, prog, disk'⟩ k .complete := by
        intro k
        unfold Manager.idHasStatus Manager.findIssue
        exact find_status_congr h k .complete
      exact congrArg b.issues.all (funext this)

/-- Replacing the id slot after an `updIssue` re-load preserves the
signature column of the index. -/
theorem setIssueObj_map_upd_sig (l : List Issue) (iid : Int)
    (s0 url : Option String) (t : String) (x y : Issue)
    (hxy : sig x = sig y) :
    (setIssueObj (l.map (updIssue iid s0 url t)) iid x).map sig
      = (setIssueObj l iid y).map sig := by
  unfold setIssueObj
  rw [List.map_map, List.map_map, List.map_map]
  apply List.map_congr_left
  intro a _
  by_cases ha : a.id = iid
  · simp [Function.comp, updIssue, ha, hxy]
  · simp [Function.comp, updIssue, ha]

/-- C4 (confirmed): with the wall-clock timestamp and the reference
passed identically, calling `mark_complete` a second time on the
ledger produced by the first call never fails and returns that same
ledger — in particular, on an already-Complete issue the repeated
call leaves statuses, timestamps, references and batch records
unchanged. -/
theorem markComplete_idempotent (doc : GraphDoc) (p : Progress) (iid : Int)
    (url : Option String) (t : String) :
    (markComplete doc p iid url t).bind
        (fun p1 => markComplete doc p1 iid url t)
      = markComplete doc p iid url t := by
  cases h : markComplete doc p iid url t with
  | none => rfl
  | some p1 =>
    show markComplete doc p1 iid url t = some p1
    obtain ⟨m, issue, hm, hissue, hp1⟩ := markComplete_inv h
    obtain ⟨hbuild, hbatches, hprogm, hdiskm⟩ := load_inv hm
    have hiid : issue.id = iid := by
      have h' := hissue
      unfold Manager.findIssue at h'
      simpa using List.find?_some h'
    have hp1issues : p1.issues
        = setKey p.issues iid (completionRecord issue url t) := by
      rw [hp1]
      exact markCompleteAux_issues m p iid issue url t
    have hp1upd : p1.updated_at = some t := by
      rw [hp1]
      exact markCompleteAux_updated_at m p iid issue url t
    have hload2 : load doc p1
        = some ⟨m.issues.map (updIssue iid issue.started_at url t),
            doc.batches, p1, p1⟩ :=
      load_setKey doc p p1 m iid issue.started_at url t (by rw [hp1issues]; rfl) hm
    have hupdid : ∀ i, (updIssue iid issue.started_at url t i).id = i.id := by
      intro i
      unfold updIssue
      split <;> rfl
    have hfind2 : (⟨m.issues.map (updIssue iid issue.started_at url t),
          doc.batches, p1, p1⟩ : Manager).findIssue iid
        = some (updIssue iid issue.started_at url t issue) := by
      unfold Manager.findIssue
      rw [find?_map_of_id_preserved _ hupdid m.issues iid]
      unfold Manager.findIssue at hissue
      rw [hissue]
      rfl
    have hi2 : updIssue iid issue.started_at url t issue
        = ⟨issue.id, issue.batch, IssueStatus.complete, issue.depends_on,
           issue.soft_depends_on, issue.blocks, issue.conflicts_with,
           issue.files, issue.started_at, some t, url⟩ := by
      unfold updIssue
      rw [if_pos hiid]
    rw [markComplete_eq_aux hload2 hfind2]
    have hbatch2 : (updIssue iid issue.started_at url t issue).batch
        = issue.batch := by
      rw [hi2]
    have hrec2 : completionRecord (updIssue iid issue.started_at url t issue)
        url t = completionRecord issue url t := by
      rw [hi2]
      rfl
    have hbase2 : completionBase p1 iid
        (updIssue iid issue.started_at url t issue) url t = p1 := by
      unfold completionBase
      rw [hrec2, hp1issues,
        setKey_of_lookupKey_eq
          (lookupKey_setKey_self p.issues iid (completionRecord issue url t)),
        ← hp1issues, ← hp1upd]
    have hsig : (setIssueObj
          (m.issues.map (updIssue iid issue.started_at url t)) iid
          (completeIssueObj (updIssue iid issue.started_at url t issue)
            url t)).map sig
        = (setIssueObj m.issues iid (completeIssueObj issue url t)).map sig :=
      setIssueObj_map_upd_sig m.issues iid issue.started_at url t _ _
        (by rw [hi2]; rfl)
    simp only [markCompleteAux, Manager.findBatch] at hp1 ⊢
    rw [← hbatches]
    simp only [completeIssueObj_batch, hbatch2, hbase2] at hp1 ⊢
    cases hfb : m.batches.find? (fun b => b.id = issue.batch) with
    | none =>
      simp only [hfb] at hp1 ⊢
    | some b =>
      simp only [hfb] at hp1 ⊢
      have hbid : b.id = issue.batch := by
        simpa using List.find?_some hfb
      rw [readyLoop_snd] at hp1
      rw [readyLoop_snd]
      by_cases hbc : Manager.isBatchComplete
          ⟨setIssueObj m.issues iid (completeIssueObj issue url t), m.batches,
            completionBase p iid issue url t, completionBase p iid issue url t⟩
          issue.batch = true
      · rw [if_pos hbc] at hp1
        by_cases hpend : (setIssueObj m.issues iid
            (completeIssueObj issue url t)).any
              (fun i => i.status = IssueStatus.pending) = true
        · rw [if_pos hpend] at hp1
          rw [hp1]
          rw [isBatchComplete_congr hsig m.batches
            (completionBase p iid issue url t)
            (completionBase p iid issue url t)
            (completionBase p iid issue url t)
            issue.batch]
          rw [if_pos hbc, any_status_congr hsig IssueStatus.pending,
            if_pos hpend]
        · rw [if_neg hpend] at hp1
          have hcache : Manager.isBatchComplete
              ⟨setIssueObj (m.issues.map (updIssue iid issue.started_at url t))
                  iid (completeIssueObj
                    (updIssue iid issue.started_at url t issue) url t),
                m.batches, p1, p1⟩
              issue.batch = true := by
            rw [hp1]
            simp [Manager.isBatchComplete, withBatchRecord, ← hbid,
              lookupKey_setKey_self, batchCompletionRecord]
          rw [if_pos hcache, any_status_congr hsig IssueStatus.pending,
            if_neg hpend, hp1]
          have habsorb : withBatchRecord
              (withBatchRecord (completionBase p iid issue url t) b t) b t
              = withBatchRecord (completionBase p iid issue url t) b t := by
            unfold withBatchRecord
            rw [setKey_of_lookupKey_eq
              (lookupKey_setKey_self (completionBase p iid issue url t).batches
                b.id (batchCompletionRecord b t))]
          rw [habsorb]
      · rw [if_neg hbc] at hp1
        rw [hp1]
        rw [isBatchComplete_congr hsig m.batches
          (completionBase p iid issue url t)
          (completionBase p iid issue url t)
          (completionBase p iid issue url t)
          issue.batch]
        rw [if_neg hbc]

/-- Closed witness for the C3 amended theorem: marking issue 2 of the
two-issue ledger complete leaves the Complete record of issue 1
untouched. -/
theorem markComplete_preserves_complete_witness :
    ledgerStatus { issues := [(1, { status := "complete" }),
      (2, { status := "pending" })] } 1 = "complete"
    ∧ ledgerStatus ((markComplete doc6
        { issues := [(1, { status := "complete" }),
          (2, { status := "pending" })] } 2 none "tw").getD {}) 1
      = "complete" := by
  constructor
  · rfl
  · exact markComplete_preserves_complete doc6
      { issues := [(1, { status := "complete" }), (2, { status := "pending" })] }
      2 none "tw" 1 _ rfl rfl

end Sentra
